import Mathlib

/-!
Verification development for the `git-mcp-rs` MCP server (`src/main.rs`).

The server is a single-threaded loop: it reads newline-delimited JSON-RPC
messages from stdin, parses each line into a `JsonRpcRequest`, answers
requests (messages carrying a non-null `id`) with exactly one JSON response
line on stdout, ignores notifications, and dispatches `tools/call` requests
to one of six capability providers (`get_tags`, `get_changelog`,
`get_readme`, `get_file_tree`, `get_file_content`, `search_repository`).

This file shallowly embeds the dispatch core and the pure parts of the
providers. The six providers perform network or subprocess I/O; following
the provider contract of the spec they are abstracted as total functions
returning `Except String Json` and collected in a `ToolEnv`. The dispatch
loop itself is embedded faithfully from `main` (main.rs lines 335-487).
-/

/-- JSON values as handled by `serde_json` in the source. Numbers are
modelled as integers: the server itself only builds integral numbers, and
numeric fields it reads (`limit`) go through `as_u64`; non-integral numbers
play no role in any property here. Objects are association lists; all field
access in the source goes through key lookup, modelled as first-match
lookup. -/
inductive Json where
  | null
  | bool (b : Bool)
  | num (n : Int)
  | str (s : String)
  | arr (elems : List Json)
  | obj (fields : List (String × Json))
deriving Repr

/-- Key lookup in an object's field list (first match). -/
def lookupField (fields : List (String × Json)) (k : String) : Option Json :=
  match fields with
  | [] => none
  | (k', v) :: rest => if k' = k then some v else lookupField rest k

/-- Field access on a JSON value: `some` only for an object with the key. -/
def Json.getField (v : Json) (k : String) : Option Json :=
  match v with
  | .obj fields => lookupField fields k
  | _ => none

/-- `serde_json`'s `Value::index` by string key (`value["key"]`): missing
keys and non-objects yield `Null` rather than an error. -/
def Json.index (v : Json) (k : String) : Json :=
  (v.getField k).getD .null

/-- `Value::as_str`. -/
def Json.asStr : Json → Option String
  | .str s => some s
  | _ => none

/-- `Value::as_u64`: the number when it is representable as a `u64`. -/
def Json.asU64 : Json → Option Nat
  | .num n => if 0 ≤ n ∧ n < (2 : Int) ^ 64 then some n.toNat else none
  | _ => none

/-- The deserialized request (main.rs lines 11-20): `jsonrpc` and `method`
are required strings, `params` defaults to `Null` when absent, and `id`
defaults to `None`; a JSON-`null` `id` also deserializes to `None`
(serde's `Option<Value>`). -/
structure JsonRpcRequest where
  jsonrpc : String
  method : String
  params : Json
  id : Option Json
deriving Repr

/-- `serde_json::from_str::<JsonRpcRequest>` on an already-lexed JSON value:
the result is `some` exactly when the value is an object whose `jsonrpc` and
`method` fields are present and are strings; unknown fields are ignored. -/
def parseRequest (v : Json) : Option JsonRpcRequest :=
  match v with
  | .obj fields =>
    match lookupField fields "jsonrpc", lookupField fields "method" with
    | some (.str jr), some (.str m) =>
      let params := (lookupField fields "params").getD .null
      let id : Option Json :=
        match lookupField fields "id" with
        | none => none
        | some .null => none
        | some w => some w
      some ⟨jr, m, params, id⟩
    | _, _ => none
  | _ => none

/-- One hexadecimal digit (lower case), as used by `serde_json`'s
`\u00XX` escapes for control characters. -/
def hexDigit (n : Nat) : Char :=
  if n < 10 then Char.ofNat (48 + n) else Char.ofNat (87 + n)

/-- `serde_json`'s escaping of one character inside a JSON string:
quote and backslash get a backslash, the named control characters use their
short escapes, the remaining control characters use `\u00XX`, and
everything else (including non-ASCII) is emitted verbatim. -/
def escapeChar (c : Char) : String :=
  if c = '"' then "\\\""
  else if c = '\\' then "\\\\"
  else if c = Char.ofNat 8 then "\\b"
  else if c = Char.ofNat 12 then "\\f"
  else if c = '\n' then "\\n"
  else if c = Char.ofNat 13 then "\\r"
  else if c = '\t' then "\\t"
  else if c.toNat < 32 then
    "\\u00" ++ String.mk [hexDigit (c.toNat / 16), hexDigit (c.toNat % 16)]
  else String.singleton c

/-- A JSON string literal as `serde_json` serializes it. -/
def renderString (s : String) : String :=
  "\"" ++ String.join (s.data.map escapeChar) ++ "\""

mutual
/-- Compact serialization of a JSON value, as `Value::to_string()` produces
it (used by the dispatcher for the `text` field of a successful `tools/call`
response, main.rs line 474). Objects serialize in stored field order; the
source's `serde_json::Map` is keyed, and no property in this development
depends on field order inside a serialized payload. -/
def renderJson : Json → String
  | .null => "null"
  | .bool true => "true"
  | .bool false => "false"
  | .num n => toString n
  | .str s => renderString s
  | .arr elems => "[" ++ renderArr elems ++ "]"
  | .obj fields => "\x7b" ++ renderObj fields ++ "\x7d"

/-- Comma-separated serialization of array elements. -/
def renderArr : List Json → String
  | [] => ""
  | [x] => renderJson x
  | x :: y :: rest => renderJson x ++ "," ++ renderArr (y :: rest)

/-- Comma-separated serialization of object fields. -/
def renderObj : List (String × Json) → String
  | [] => ""
  | [(k, v)] => renderString k ++ ":" ++ renderJson v
  | (k, v) :: f :: rest => renderString k ++ ":" ++ renderJson v ++ "," ++ renderObj (f :: rest)
end

/-- The six capability providers, abstracted at their Rust signatures
(main.rs lines 87, 148, 179, 209, 251, 288). Each performs network or
subprocess I/O and returns either a success payload or a failure string;
per the provider contract they are modelled as total functions. -/
structure ToolEnv where
  get_tags : String → Option Nat → Except String Json
  get_changelog : String → String → String → Except String Json
  get_readme : String → Except String Json
  get_file_tree : String → Option String → Except String Json
  get_file_content : String → String → Option String → Except String Json
  search_repository : String → String → Except String Json

/-- The success envelope for `tools/call` (main.rs line 474): the payload is
serialized into the single text content block. -/
def okToolEnvelope (idv : Json) (data : Json) : Json :=
  .obj [("jsonrpc", .str "2.0"), ("id", idv),
    ("result", .obj [("content", .arr [.obj [("type", .str "text"),
      ("text", .str (renderJson data))]])])]

/-- The failure envelope for `tools/call` (main.rs line 475): `isError` is
set and the failure string becomes the single text content block. -/
def errToolEnvelope (idv : Json) (e : String) : Json :=
  .obj [("jsonrpc", .str "2.0"), ("id", idv),
    ("result", .obj [("isError", .bool true),
      ("content", .arr [.obj [("type", .str "text"), ("text", .str e)]])])]

/-- The `initialize` response (main.rs lines 380-388). -/
def initializeResponse (idv : Json) : Json :=
  .obj [("jsonrpc", .str "2.0"), ("id", idv),
    ("result", .obj [
      ("protocolVersion", .str "2024-11-05"),
      ("capabilities", .obj [("tools", .obj [])]),
      ("serverInfo", .obj [("name", .str "rust-git-mcp"), ("version", .str "0.2.0")])])]

/-- The fixed tool catalog of the `tools/list` response (main.rs
lines 391-450), embedded verbatim. -/
def toolCatalog : List Json :=
  [.obj [("name", .str "get_tags"),
     ("description", .str "Call this tool BEFORE writing any dependency in Cargo.toml/package.json. Returns the latest versions. Use 'limit: 5' to avoid fetching old tags."),
     ("inputSchema", .obj [("type", .str "object"),
       ("properties", .obj [
         ("url", .obj [("type", .str "string")]),
         ("limit", .obj [("type", .str "integer"),
           ("description", .str "Number of latest tags to return. Default returns ALL (avoid this for large repos).")])]),
       ("required", .arr [.str "url"])])],
   .obj [("name", .str "get_changelog"),
     ("description", .str "Analyze commit messages between versions to identify breaking changes, deprecated features, or migration guides."),
     ("inputSchema", .obj [("type", .str "object"),
       ("properties", .obj [
         ("url", .obj [("type", .str "string")]),
         ("start_tag", .obj [("type", .str "string")]),
         ("end_tag", .obj [("type", .str "string")])]),
       ("required", .arr [.str "url", .str "start_tag", .str "end_tag"])])],
   .obj [("name", .str "get_readme"),
     ("description", .str "Read the README to find installation instructions and basic usage examples that are compatible with the fetched version."),
     ("inputSchema", .obj [("type", .str "object"),
       ("properties", .obj [("url", .obj [("type", .str "string")])]),
       ("required", .arr [.str "url"])])],
   .obj [("name", .str "get_file_tree"),
     ("description", .str "Explore the repository structure. Look for 'examples/' or 'tests/' folders to find up-to-date code patterns."),
     ("inputSchema", .obj [("type", .str "object"),
       ("properties", .obj [
         ("url", .obj [("type", .str "string")]),
         ("branch", .obj [("type", .str "string")])]),
       ("required", .arr [.str "url"])])],
   .obj [("name", .str "get_file_content"),
     ("description", .str "Read content of source files (especially in 'examples/'). Use this to verify API syntax and ensure the code you write matches the library version."),
     ("inputSchema", .obj [("type", .str "object"),
       ("properties", .obj [
         ("url", .obj [("type", .str "string"), ("description", .str "Repository URL")]),
         ("path", .obj [("type", .str "string"),
           ("description", .str "Path to the file (e.g., 'src/main.cpp' or 'module.prop')")]),
         ("branch", .obj [("type", .str "string"),
           ("description", .str "Branch name or Tag (e.g., 'v1.0.0'). Defaults to HEAD/main.")])]),
       ("required", .arr [.str "url", .str "path"])])],
   .obj [("name", .str "search_repository"),
     ("description", .str "Search for code, functions, or text inside the repository using GitHub Search API."),
     ("inputSchema", .obj [("type", .str "object"),
       ("properties", .obj [
         ("url", .obj [("type", .str "string")]),
         ("query", .obj [("type", .str "string"),
           ("description", .str "Text/Code to search (e.g., 'dependencies', 'fn main', 'struct Config')")])]),
       ("required", .arr [.str "url", .str "query"])])]]

/-- The `tools/list` response (main.rs lines 391-450). -/
def toolsListResponse (idv : Json) : Json :=
  .obj [("jsonrpc", .str "2.0"), ("id", idv),
    ("result", .obj [("tools", .arr toolCatalog)])]

/-- The tool names the `tools/call` dispatch recognizes (the match arms of
main.rs lines 457-470; they coincide with the catalog's names). -/
def toolNames : List String :=
  ["get_tags", "get_changelog", "get_readme", "get_file_tree",
   "get_file_content", "search_repository"]

/-- The provider dispatch inside the `tools/call` arm (main.rs
lines 453-471): `name` and `arguments` are read from `params` with
`serde_json` indexing, string arguments default to `""` via
`as_str().unwrap_or("")`, optional arguments stay `Option`, and an
unrecognized name produces the `Err` of line 470. -/
def providerResult (env : ToolEnv) (params : Json) : Except String Json :=
  let args := params.index "arguments"
  let name := (params.index "name").asStr.getD ""
  match name with
  | "get_tags" => env.get_tags ((args.index "url").asStr.getD "") ((args.index "limit").asU64)
  | "get_changelog" => env.get_changelog ((args.index "url").asStr.getD "")
      ((args.index "start_tag").asStr.getD "") ((args.index "end_tag").asStr.getD "")
  | "get_readme" => env.get_readme ((args.index "url").asStr.getD "")
  | "get_file_tree" => env.get_file_tree ((args.index "url").asStr.getD "")
      ((args.index "branch").asStr)
  | "get_file_content" => env.get_file_content ((args.index "url").asStr.getD "")
      ((args.index "path").asStr.getD "") ((args.index "branch").asStr)
  | "search_repository" => env.search_repository ((args.index "url").asStr.getD "")
      ((args.index "query").asStr.getD "")
  | _ => .error ("Tool '" ++ name ++ "' not found")

/-- The envelope a `tools/call` result is wrapped in (the
`match result_content` of main.rs lines 473-476): success and failure each
map to their envelope, 1:1, nothing retried or reinterpreted. -/
def toolCallEnvelope (idv : Json) (res : Except String Json) : Json :=
  match res with
  | .ok data => okToolEnvelope idv data
  | .error e => errToolEnvelope idv e

/-- The response for one request carrying `id` (the `match req.method`
of main.rs lines 378-480). -/
def handleCall (env : ToolEnv) (idv : Json) (method : String) (params : Json) : Json :=
  match method with
  | "initialize" => initializeResponse idv
  | "tools/list" => toolsListResponse idv
  | "tools/call" => toolCallEnvelope idv (providerResult env params)
  | _ => .obj [("jsonrpc", .str "2.0"), ("id", idv), ("result", .obj [])]

/-- Zero or one responses for one parsed request (main.rs lines 369-480):
a request without `id` is a notification and is only logged (the
`notifications/initialized` branch merely prints to stderr), every request
with an `id` gets exactly one response. -/
def handleRequest (env : ToolEnv) (req : JsonRpcRequest) : Option Json :=
  match req.id with
  | none => none
  | some idv => some (handleCall env idv req.method req.params)

/-- One line of stdin, abstracted at the lexical level: a
whitespace-only line, a line that is not valid JSON text, or a line
carrying a JSON value. -/
inductive RawLine where
  | blank
  | invalid
  | json (v : Json)

/-- The body of the read loop for one line (main.rs lines 352-485):
blank lines are skipped, lines that fail to deserialize (invalid JSON text,
or a JSON value `parseRequest` rejects) are logged to stderr and skipped,
and everything else flows through `handleRequest`. -/
def processLine (env : ToolEnv) (l : RawLine) : Option Json :=
  match l with
  | .blank => none
  | .invalid => none
  | .json v =>
    match parseRequest v with
    | none => none
    | some req => handleRequest env req

/-- The whole stdin loop (main.rs lines 352-486): the produced response
lines, in order. Each line contributes its zero or one responses in input
order. -/
def runServer (env : ToolEnv) (inputs : List RawLine) : List Json :=
  inputs.filterMap (processLine env)

/-- The `result` member of a response envelope. -/
def respResult (resp : Json) : Option Json :=
  resp.getField "result"

/-- The `isError` flag inside a response's `result`. -/
def respIsErrorFlag (resp : Json) : Option Json :=
  (respResult resp).bind (fun r => r.getField "isError")

/-- The text of a response's single content block, when the response has
exactly one. -/
def respText (resp : Json) : Option String :=
  match (respResult resp).bind (fun r => r.getField "content") with
  | some (.arr [c]) =>
    match c.getField "text" with
    | some (.str t) => some t
    | _ => none
  | _ => none

/-- A concrete provider environment, used to instantiate the general
theorems at concrete inputs. -/
def sampleEnv : ToolEnv where
  get_tags := fun _ _ => .ok .null
  get_changelog := fun _ _ _ => .ok .null
  get_readme := fun _ => .error "Error: 404 Not Found"
  get_file_tree := fun _ _ => .ok .null
  get_file_content := fun _ _ _ => .ok .null
  search_repository := fun _ _ => .error "Search API Error: 403 Forbidden (Search requires Auth & Valid Repo)"

/-- A parsed value without a `method` field is rejected by deserialization. -/
theorem parseRequest_eq_none_of_no_method (v : Json)
    (h : v.getField "method" = none) : parseRequest v = none := by
  cases v with
  | obj fields =>
    simp only [Json.getField] at h
    simp only [parseRequest, h]
    rcases lookupField fields "jsonrpc" with _ | w
    · rfl
    · cases w <;> rfl
  | null => rfl
  | bool b => rfl
  | num n => rfl
  | str s => rfl
  | arr elems => rfl

/-- C1: an input line parsing to a request with a non-null `id` produces
exactly one response; a parsed message whose `id` is absent or null produces
none, whatever its `method`; and each line's responses precede those of all
later lines, so responses appear in request order. -/
theorem request_once_notification_never
    (env : ToolEnv) (v : Json) (req : JsonRpcRequest) (rest : List RawLine)
    (hp : parseRequest v = some req) :
    ((∃ i, req.id = some i) → ∃ r, processLine env (.json v) = some r) ∧
    (req.id = none → processLine env (.json v) = none) ∧
    runServer env (.json v :: rest) =
      (processLine env (.json v)).toList ++ runServer env rest := by
  refine ⟨?_, ?_, ?_⟩
  · rintro ⟨i, hi⟩
    exact ⟨handleCall env i req.method req.params, by
      simp [processLine, hp, handleRequest, hi]⟩
  · intro hi
    simp [processLine, hp, handleRequest, hi]
  · show List.filterMap _ (_ :: _) = _
    rw [List.filterMap_cons]
    cases processLine env (.json v) <;> simp [runServer]

/-- C1 witness: a concrete `initialize` request with `id` 1 yields one
response, and a concrete notification yields none. -/
theorem request_once_notification_never_witness :
    parseRequest (.obj [("jsonrpc", .str "2.0"), ("method", .str "initialize"),
        ("id", .num 1)]) =
      some ⟨"2.0", "initialize", .null, some (.num 1)⟩ ∧
    ((∃ i, (some (Json.num 1) : Option Json) = some i) →
      ∃ r, processLine sampleEnv
        (.json (.obj [("jsonrpc", .str "2.0"), ("method", .str "initialize"),
          ("id", .num 1)])) = some r) :=
  ⟨rfl, ((request_once_notification_never sampleEnv
    (.obj [("jsonrpc", .str "2.0"), ("method", .str "initialize"), ("id", .num 1)])
    ⟨"2.0", "initialize", .null, some (.num 1)⟩ [] rfl).1)⟩

/-- C2: the `id` of the produced response is the request's `id` value,
unchanged (same JSON type and value), for every method, known or not. -/
theorem response_id_echoes_request_id
    (env : ToolEnv) (req : JsonRpcRequest) (i r : Json)
    (hid : req.id = some i) (h : handleRequest env req = some r) :
    r.getField "id" = some i := by
  unfold handleRequest at h
  rw [hid] at h
  injection h with h
  subst h
  unfold handleCall
  split
  · rfl
  · rfl
  · rcases providerResult env req.params with e | d <;> rfl
  · rfl

/-- C2 witness: a `tools/call` request with the string id `"seven"` gets a
response whose id is the same string. -/
theorem response_id_echoes_request_id_witness :
    (⟨"2.0", "tools/call", .obj [("name", .str "nope")], some (.str "seven")⟩
        : JsonRpcRequest).id = some (.str "seven") ∧
    handleRequest sampleEnv
        ⟨"2.0", "tools/call", .obj [("name", .str "nope")], some (.str "seven")⟩ =
      some (errToolEnvelope (.str "seven") "Tool 'nope' not found") ∧
    (errToolEnvelope (.str "seven") "Tool 'nope' not found").getField "id" =
      some (.str "seven") :=
  ⟨rfl, rfl, response_id_echoes_request_id sampleEnv
    ⟨"2.0", "tools/call", .obj [("name", .str "nope")], some (.str "seven")⟩
    (.str "seven") (errToolEnvelope (.str "seven") "Tool 'nope' not found")
    rfl rfl⟩

/-- C3: a line that is not valid JSON, or whose value lacks a `method`
field, produces no response line, and the loop continues: the remaining
lines produce exactly what they would produce alone. -/
theorem bad_lines_silent_loop_continues
    (env : ToolEnv) (v : Json) (rest : List RawLine)
    (hm : v.getField "method" = none) :
    processLine env .invalid = none ∧
    runServer env (.invalid :: rest) = runServer env rest ∧
    processLine env (.json v) = none ∧
    runServer env (.json v :: rest) = runServer env rest := by
  have hv : processLine env (.json v) = none := by
    simp [processLine, parseRequest_eq_none_of_no_method v hm]
  refine ⟨rfl, ?_, hv, ?_⟩
  · show List.filterMap _ (_ :: _) = _
    rw [List.filterMap_cons]
    rfl
  · show List.filterMap _ (_ :: _) = _
    rw [List.filterMap_cons, hv]
    rfl

/-- C3 witness: an invalid line and a methodless object, each followed by a
valid request, leave that request's processing unchanged. -/
theorem bad_lines_silent_loop_continues_witness :
    (Json.obj [("jsonrpc", .str "2.0"), ("id", .num 4)]).getField "method" = none ∧
    processLine sampleEnv (.json (.obj [("jsonrpc", .str "2.0"), ("id", .num 4)])) = none ∧
    runServer sampleEnv
        [.invalid, .json (.obj [("jsonrpc", .str "2.0"), ("id", .num 4)]),
         .json (.obj [("jsonrpc", .str "2.0"), ("method", .str "tools/list"), ("id", .num 2)])] =
      [toolsListResponse (.num 2)] :=
  ⟨rfl,
   (bad_lines_silent_loop_continues sampleEnv
     (.obj [("jsonrpc", .str "2.0"), ("id", .num 4)]) [] rfl).2.2.1,
   rfl⟩

/-- C4: a `tools/call` whose extracted tool name is not registered yields
the error-flagged envelope whose text is exactly `Tool 'X' not found`. -/
theorem unknown_tool_not_found_error
    (env : ToolEnv) (idv params : Json)
    (hname : (params.index "name").asStr.getD "" ∉ toolNames) :
    providerResult env params =
      .error ("Tool '" ++ ((params.index "name").asStr.getD "") ++ "' not found") ∧
    handleCall env idv "tools/call" params =
      errToolEnvelope idv ("Tool '" ++ ((params.index "name").asStr.getD "") ++ "' not found") ∧
    respIsErrorFlag (handleCall env idv "tools/call" params) = some (.bool true) ∧
    respText (handleCall env idv "tools/call" params) =
      some ("Tool '" ++ ((params.index "name").asStr.getD "") ++ "' not found") := by
  simp only [toolNames, List.mem_cons, not_or, List.not_mem_nil] at hname
  have hp : providerResult env params =
      .error ("Tool '" ++ ((params.index "name").asStr.getD "") ++ "' not found") := by
    simp only [providerResult]
    split
    all_goals simp_all
  have hc : handleCall env idv "tools/call" params =
      toolCallEnvelope idv (providerResult env params) := rfl
  rw [hc, hp]
  exact ⟨rfl, rfl, rfl, rfl⟩

/-- C4 witness: calling the unregistered tool `nope` produces the
`Tool 'nope' not found` failure envelope. -/
theorem unknown_tool_not_found_error_witness :
    ((Json.obj [("name", .str "nope"), ("arguments", .obj [])]).index "name").asStr.getD ""
        ∉ toolNames ∧
    respText (handleCall sampleEnv (.num 3) "tools/call"
        (.obj [("name", .str "nope"), ("arguments", .obj [])])) =
      some "Tool 'nope' not found" :=
  ⟨by decide,
   (unknown_tool_not_found_error sampleEnv (.num 3)
     (.obj [("name", .str "nope"), ("arguments", .obj [])]) (by decide)).2.2.2⟩

/-- C5: for a `tools/call` routed to a known tool, the provider's result is
mapped 1:1 into the envelope: a failure becomes the error-flagged envelope
carrying the provider's failure text verbatim, a success becomes the
success envelope carrying the serialized payload; nothing is retried or
rewritten. -/
theorem provider_result_mapped_verbatim
    (env : ToolEnv) (idv params : Json) (res : Except String Json)
    (_hknown : (params.index "name").asStr.getD "" ∈ toolNames)
    (hres : providerResult env params = res) :
    handleCall env idv "tools/call" params = toolCallEnvelope idv res ∧
    (∀ e, res = .error e →
      respIsErrorFlag (handleCall env idv "tools/call" params) = some (.bool true) ∧
      respText (handleCall env idv "tools/call" params) = some e) ∧
    (∀ data, res = .ok data →
      respIsErrorFlag (handleCall env idv "tools/call" params) = none ∧
      respText (handleCall env idv "tools/call" params) = some (renderJson data)) := by
  have hc : handleCall env idv "tools/call" params =
      toolCallEnvelope idv (providerResult env params) := rfl
  rw [hc, hres]
  refine ⟨rfl, ?_, ?_⟩
  · rintro e rfl
    exact ⟨rfl, rfl⟩
  · rintro data rfl
    exact ⟨rfl, rfl⟩

/-- C5 witness: `get_readme` is known; with a provider failing as
`Error: 404 Not Found`, the response carries exactly that text, flagged. -/
theorem provider_result_mapped_verbatim_witness :
    ((Json.obj [("name", .str "get_readme"),
        ("arguments", .obj [("url", .str "https://github.com/a/b")])]).index "name").asStr.getD ""
      ∈ toolNames ∧
    providerResult sampleEnv
        (.obj [("name", .str "get_readme"),
          ("arguments", .obj [("url", .str "https://github.com/a/b")])]) =
      .error "Error: 404 Not Found" ∧
    (∀ e, (Except.error "Error: 404 Not Found" : Except String Json) = .error e →
      respIsErrorFlag (handleCall sampleEnv (.num 5) "tools/call"
        (.obj [("name", .str "get_readme"),
          ("arguments", .obj [("url", .str "https://github.com/a/b")])])) = some (.bool true) ∧
      respText (handleCall sampleEnv (.num 5) "tools/call"
        (.obj [("name", .str "get_readme"),
          ("arguments", .obj [("url", .str "https://github.com/a/b")])])) = some e) :=
  ⟨by decide, rfl,
   (provider_result_mapped_verbatim sampleEnv (.num 5)
     (.obj [("name", .str "get_readme"),
       ("arguments", .obj [("url", .str "https://github.com/a/b")])])
     (.error "Error: 404 Not Found") (by decide) rfl).2.1⟩

/-- C7: argument extraction never rejects a call for a missing required
property: each declared string property defaults to `""`, each optional one
to `none`, and the provider is invoked with those defaults (shown with
`arguments` present but empty, and for `get_tags` also absent entirely). -/
theorem missing_required_args_default_not_rejected (env : ToolEnv) :
    providerResult env (.obj [("name", .str "get_tags")]) = env.get_tags "" none ∧
    providerResult env (.obj [("name", .str "get_tags"), ("arguments", .obj [])]) =
      env.get_tags "" none ∧
    providerResult env (.obj [("name", .str "get_changelog"), ("arguments", .obj [])]) =
      env.get_changelog "" "" "" ∧
    providerResult env (.obj [("name", .str "get_readme"), ("arguments", .obj [])]) =
      env.get_readme "" ∧
    providerResult env (.obj [("name", .str "get_file_tree"), ("arguments", .obj [])]) =
      env.get_file_tree "" none ∧
    providerResult env (.obj [("name", .str "get_file_content"), ("arguments", .obj [])]) =
      env.get_file_content "" "" none ∧
    providerResult env (.obj [("name", .str "search_repository"), ("arguments", .obj [])]) =
      env.search_repository "" "" :=
  ⟨rfl, rfl, rfl, rfl, rfl, rfl, rfl⟩

/-- C8: a request with an id whose method is none of `initialize`,
`tools/list`, `tools/call` gets the bare empty-result success envelope,
never an error. -/
theorem unknown_method_empty_success
    (env : ToolEnv) (req : JsonRpcRequest) (idv : Json)
    (hid : req.id = some idv)
    (h1 : req.method ≠ "initialize") (h2 : req.method ≠ "tools/list")
    (h3 : req.method ≠ "tools/call") :
    handleRequest env req =
      some (.obj [("jsonrpc", .str "2.0"), ("id", idv), ("result", .obj [])]) ∧
    respIsErrorFlag (.obj [("jsonrpc", .str "2.0"), ("id", idv), ("result", .obj [])]) = none := by
  refine ⟨?_, rfl⟩
  unfold handleRequest
  rw [hid]
  unfold handleCall
  split <;> simp_all

/-- C8 witness: the unrecognized method `resources/list` with id 9 yields
the empty success envelope. -/
theorem unknown_method_empty_success_witness :
    (⟨"2.0", "resources/list", .null, some (.num 9)⟩ : JsonRpcRequest).id = some (.num 9) ∧
    handleRequest sampleEnv ⟨"2.0", "resources/list", .null, some (.num 9)⟩ =
      some (.obj [("jsonrpc", .str "2.0"), ("id", .num 9), ("result", .obj [])]) :=
  ⟨rfl,
   (unknown_method_empty_success sampleEnv ⟨"2.0", "resources/list", .null, some (.num 9)⟩
     (.num 9) rfl (by decide) (by decide) (by decide)).1⟩

/-- The literal `github.com/` the regex of `parse_github_url` (main.rs
line 30) anchors on, as characters. -/
def ghMarker : List Char := "github.com/".data

/-- One attempt of the regex `github\.com/([^/]+)/([^/]+?)(?:\.git)?$` at
the head of `l`, matched through to the end of input: the literal marker,
then a maximal nonempty slash-free run as the owner capture, a slash, and a
nonempty slash-free remainder (the repo capture together with its optional
`.git` suffix). The remainder must reach `$`: a further slash makes every
backtracking attempt at this position fail, since neither capture can
contain `/`. -/
def ghMatchHere (l : List Char) : Option (List Char × List Char) :=
  if l.take 11 = ghMarker then
    let owner := (l.drop 11).takeWhile (· ≠ '/')
    match (l.drop 11).dropWhile (· ≠ '/') with
    | '/' :: rp => if owner ≠ [] ∧ rp ≠ [] ∧ '/' ∉ rp then some (owner, rp) else none
    | _ => none
  else none

/-- `Regex::captures`' leftmost-match search: try each start position from
the left. (On the empty input no attempt can succeed: `ghMatchHere []` is
`none`, as the marker does not fit.) -/
def ghFind : List Char → Option (List Char × List Char)
  | [] => none
  | c :: cs =>
    match ghMatchHere (c :: cs) with
    | some res => some res
    | none => ghFind cs

/-- The lazy repo capture combined with the greedy optional `(?:\.git)?`:
among the ways to split the remainder `rp` into a nonempty repo capture and
an optional literal `.git` reaching `$`, the shortest repo capture wins —
i.e. one trailing `.git` is stripped exactly when at least one character
precedes it. -/
def stripGit (rp : List Char) : List Char :=
  if 4 < rp.length ∧ rp.drop (rp.length - 4) = ".git".data then
    rp.take (rp.length - 4)
  else rp

/-- `parse_github_url` (main.rs lines 29-33). The `Regex::new` pattern is a
fixed valid expression, so its `map_err` arm is dead; capture groups 1 and 2
participate in every match, so the `caps[i]` indexing cannot fail; the
embedding is a total function, matching the absence of panics in the
original. -/
def parse_github_url (url : String) : Except String (String × String) :=
  match ghFind url.data with
  | some (owner, rp) => .ok (String.mk owner, String.mk (stripGit rp))
  | none => .error "Invalid GitHub URL"

/-- The claim's characterization of a matching URL, written from the spec
side for comparison: the string ends with `github.com/<owner>/<tail>` where
owner and tail are nonempty and slash-free (the repo capture is the tail
with one optional trailing `.git` stripped). -/
def GithubTail (l owner tail : List Char) : Prop :=
  (∃ pre, l = pre ++ ghMarker ++ (owner ++ '/' :: tail)) ∧
  owner ≠ [] ∧ tail ≠ [] ∧ '/' ∉ owner ∧ '/' ∉ tail

/-- Two decompositions of one list into a prefix, a `'/'`, and a slash-free
tail agree. -/
theorem slash_tail_unique {x y b b' : List Char}
    (h : x ++ '/' :: b = y ++ '/' :: b') (hb : '/' ∉ b) (hb' : '/' ∉ b') :
    b = b' ∧ x = y := by
  have hs1 : ('/' :: b) <:+ (y ++ '/' :: b') := ⟨x, h⟩
  have hs2 : ('/' :: b') <:+ (y ++ '/' :: b') := ⟨y, rfl⟩
  have heq : ('/' :: b) = ('/' :: b') := by
    rcases List.suffix_or_suffix_of_suffix hs1 hs2 with hh | hh
    · rcases List.suffix_cons_iff.mp hh with h1 | h1
      · exact h1
      · exact absurd (h1.mem (List.mem_cons_self _ _)) hb'
    · rcases List.suffix_cons_iff.mp hh with h1 | h1
      · exact h1.symm
      · exact absurd (h1.mem (List.mem_cons_self _ _)) hb
  have hbb : b = b' := by injection heq
  subst hbb
  exact ⟨rfl, List.append_cancel_right h⟩

/-- `takeWhile`/`dropWhile` at the first slash of `o ++ '/' :: r`. -/
theorem takeWhile_dropWhile_slash (o r : List Char) (ho : '/' ∉ o) :
    (o ++ '/' :: r).takeWhile (· ≠ '/') = o ∧
    (o ++ '/' :: r).dropWhile (· ≠ '/') = '/' :: r := by
  induction o with
  | nil => constructor <;> simp [List.takeWhile_cons, List.dropWhile_cons]
  | cons c cs ih =>
    have hc : c ≠ '/' := fun hcc => ho (by simp [hcc])
    obtain ⟨ih1, ih2⟩ := ih (fun hm => ho (List.mem_cons_of_mem _ hm))
    refine ⟨?_, ?_⟩
    · show List.takeWhile _ (c :: (cs ++ '/' :: r)) = c :: cs
      rw [List.takeWhile_cons, if_pos (by simpa using hc), ih1]
    · show List.dropWhile _ (c :: (cs ++ '/' :: r)) = '/' :: r
      rw [List.dropWhile_cons, if_pos (by simpa using hc), ih2]


/-- The head of a `dropWhile` result fails the predicate. -/
theorem dropWhile_head_false {α : Type} {p : α → Bool} {l : List α} {c : α}
    {rest : List α} (h : l.dropWhile p = c :: rest) : p c = false := by
  induction l with
  | nil => simp [List.dropWhile] at h
  | cons a as ih =>
    rw [List.dropWhile_cons] at h
    by_cases hp : p a
    · rw [if_pos hp] at h
      exact ih h
    · rw [if_neg hp] at h
      injection h with h1 _
      subst h1
      exact Bool.eq_false_iff.mpr hp

/-- A successful `ghMatchHere` exhibits the whole input as marker, owner,
slash, remainder, with the captures nonempty and slash-free. -/
theorem ghMatchHere_sound {l o r : List Char} (h : ghMatchHere l = some (o, r)) :
    l = ghMarker ++ (o ++ '/' :: r) ∧ o ≠ [] ∧ r ≠ [] ∧ '/' ∉ o ∧ '/' ∉ r := by
  unfold ghMatchHere at h
  by_cases htake : l.take 11 = ghMarker
  case neg =>
    rw [if_neg htake] at h
    exact absurd h (by simp)
  rw [if_pos htake] at h
  rcases hdw : (l.drop 11).dropWhile (· ≠ '/') with _ | ⟨c, rp⟩ <;> rw [hdw] at h
  · exact absurd h (by simp)
  have hc : c = '/' := by
    have := dropWhile_head_false hdw
    simpa using this
  subst hc
  have h' : (if (l.drop 11).takeWhile (· ≠ '/') ≠ [] ∧ rp ≠ [] ∧ '/' ∉ rp then
      some ((l.drop 11).takeWhile (· ≠ '/'), rp) else none) = some (o, r) := h
  by_cases hcond : (l.drop 11).takeWhile (· ≠ '/') ≠ [] ∧ rp ≠ [] ∧ '/' ∉ rp
  case neg =>
    rw [if_neg hcond] at h'
    exact absurd h' (by simp)
  rw [if_pos hcond] at h'
  injection h' with h'
  obtain ⟨ho, hr⟩ := Prod.mk.injEq _ _ _ _ ▸ h'
  subst ho
  subst hr
  refine ⟨?_, hcond.1, hcond.2.1, ?_, hcond.2.2⟩
  · conv_lhs => rw [← List.take_append_drop 11 l, htake,
      ← List.takeWhile_append_dropWhile (p := (· ≠ '/')) (l := l.drop 11), hdw]
  · intro hmem
    have := List.mem_takeWhile_imp hmem
    simp at this

/-- `ghMatchHere` succeeds on exactly the marker-owner-slash-tail shape. -/
theorem ghMatchHere_complete {o r : List Char} (ho : o ≠ []) (hr : r ≠ [])
    (hso : '/' ∉ o) (hsr : '/' ∉ r) :
    ghMatchHere (ghMarker ++ (o ++ '/' :: r)) = some (o, r) := by
  obtain ⟨ht, hd⟩ := takeWhile_dropWhile_slash o r hso
  have h11 : (ghMarker ++ (o ++ '/' :: r)).take 11 = ghMarker := by
    have hlen : ghMarker.length = 11 := rfl
    rw [← hlen, List.take_left]
  have hdrop : (ghMarker ++ (o ++ '/' :: r)).drop 11 = o ++ '/' :: r := by
    have hlen : ghMarker.length = 11 := rfl
    rw [← hlen, List.drop_left]
  unfold ghMatchHere
  rw [if_pos h11, hdrop, ht, hd]
  show (if o ≠ [] ∧ r ≠ [] ∧ '/' ∉ r then some (o, r) else none) = some (o, r)
  rw [if_pos ⟨ho, hr, hsr⟩]

/-- A successful `ghFind` exhibits the claimed suffix decomposition. -/
theorem ghFind_sound : ∀ {l o r : List Char}, ghFind l = some (o, r) →
    GithubTail l o r := by
  intro l
  induction l with
  | nil =>
    intro o r h
    cases h
  | cons c cs ih =>
    intro o r h
    unfold ghFind at h
    rcases hm : ghMatchHere (c :: cs) with _ | ⟨⟨o', r'⟩⟩ <;> rw [hm] at h
    · replace h : ghFind cs = some (o, r) := h
      obtain ⟨⟨pre, hpre⟩, h2, h3, h4, h5⟩ := ih h
      exact ⟨⟨c :: pre, by rw [hpre]; simp⟩, h2, h3, h4, h5⟩
    · injection h with h
      obtain ⟨ho, hr⟩ := Prod.mk.injEq _ _ _ _ ▸ h
      subst ho
      subst hr
      obtain ⟨hshape, h2, h3, h4, h5⟩ := ghMatchHere_sound hm
      exact ⟨⟨[], by simpa using hshape⟩, h2, h3, h4, h5⟩

/-- Any two decompositions of one string as (prefix, `github.com/`, owner,
slash, slash-free tail) give the same owner and tail: the last two path
segments are what they are. -/
theorem ghTail_unique {l pre o r o' r' : List Char}
    (h1 : l = pre ++ ghMarker ++ (o ++ '/' :: r))
    (h2 : l = ghMarker ++ (o' ++ '/' :: r'))
    (hso : '/' ∉ o) (hsr : '/' ∉ r) (hso' : '/' ∉ o') (hsr' : '/' ∉ r') :
    o' = o ∧ r' = r := by
  have heq : (ghMarker ++ o') ++ '/' :: r' = ((pre ++ ghMarker) ++ o) ++ '/' :: r := by
    have h3 := h2.symm.trans h1
    simpa [List.append_assoc] using h3
  obtain ⟨hrr, hoo⟩ := slash_tail_unique heq hsr' hsr
  have hsplit : ghMarker = "github.com".data ++ ['/'] := by decide
  have heq2 : "github.com".data ++ '/' :: o' = (pre ++ "github.com".data) ++ '/' :: o := by
    rw [hsplit] at hoo
    simpa [List.append_assoc] using hoo
  obtain ⟨hoo2, -⟩ := slash_tail_unique heq2 hso' hso
  exact ⟨hoo2, hrr⟩

/-- A position where `ghMatchHere` succeeds makes `ghFind` succeed. -/
theorem ghFind_of_matchHere {l : List Char} {res : List Char × List Char}
    (h : ghMatchHere l = some res) : ghFind l = some res := by
  cases l with
  | nil =>
    rw [show ghMatchHere ([] : List Char) = none from rfl] at h
    cases h
  | cons c cs =>
    unfold ghFind
    rw [h]

/-- `ghFind` finds the decomposition whenever one exists. -/
theorem ghFind_complete {o r : List Char} (ho : o ≠ []) (hr : r ≠ [])
    (hso : '/' ∉ o) (hsr : '/' ∉ r) :
    ∀ pre, ghFind (pre ++ ghMarker ++ (o ++ '/' :: r)) = some (o, r) := by
  intro pre
  induction pre with
  | nil =>
    rw [List.nil_append]
    exact ghFind_of_matchHere (ghMatchHere_complete ho hr hso hsr)
  | cons c pre ih =>
    have hshape : (c :: pre) ++ ghMarker ++ (o ++ '/' :: r) =
        c :: (pre ++ ghMarker ++ (o ++ '/' :: r)) := by simp
    rw [hshape]
    unfold ghFind
    rcases hm : ghMatchHere (c :: (pre ++ ghMarker ++ (o ++ '/' :: r))) with _ | ⟨⟨o', r'⟩⟩
    · exact ih
    · obtain ⟨hshape', h2, h3, h4, h5⟩ := ghMatchHere_sound hm
      obtain ⟨hoo, hrr⟩ := ghTail_unique (by rw [hshape]) hshape' hso hsr h4 h5
      rw [hoo, hrr]

/-- C10: `parse_github_url` returns `Ok` exactly on the strings that end in
`github.com/<owner>/<tail>` with owner and tail nonempty and slash-free,
and then the returned pair is the owner together with the tail after one
optional trailing `.git` is stripped; every other string gets the error
`Invalid GitHub URL`. The embedding is a total function — there is no
panicking path — matching the original, whose regex is a fixed valid
pattern and whose capture groups participate in every match. -/
theorem parse_github_url_characterization (url : String) :
    (∀ owner tail, GithubTail url.data owner tail →
      parse_github_url url = .ok (String.mk owner, String.mk (stripGit tail))) ∧
    ((¬ ∃ owner tail, GithubTail url.data owner tail) →
      parse_github_url url = .error "Invalid GitHub URL") := by
  constructor
  · rintro o t ⟨⟨pre, hpre⟩, ho, ht, hso, hst⟩
    unfold parse_github_url
    rw [hpre, ghFind_complete ho ht hso hst pre]
  · intro hn
    unfold parse_github_url
    rcases hf : ghFind url.data with _ | ⟨⟨o, t⟩⟩
    · rfl
    · exact absurd ⟨o, t, ghFind_sound hf⟩ hn

/-- A parsed semantic version as the `semver` crate (v1) stores it:
numeric `major.minor.patch` (`u64` in the crate, here `Nat` kept under
`2 ^ 64` by the parser), plus the dot-separated pre-release and build
identifiers. An absent pre-release or build is the empty list. -/
structure SemVer where
  major : Nat
  minor : Nat
  patch : Nat
  pre : List (List Char)
  build : List (List Char)
deriving Repr, DecidableEq

/-- The `semver` crate's `numeric_identifier`: a nonempty run of ASCII
digits, rejecting a leading zero on a multi-digit run and any value
overflowing `u64` (the crate errors at the first overflowing step, which is
the same condition as the final value reaching `2 ^ 64`). -/
def parseNumericIdent (l : List Char) : Option (Nat × List Char) :=
  let digits := l.takeWhile (fun c => c.isDigit)
  let rest := l.dropWhile (fun c => c.isDigit)
  if digits = [] then none
  else if 1 < digits.length ∧ digits.head? = some '0' then none
  else
    let v := digits.foldl (fun acc c => acc * 10 + (c.toNat - 48)) 0
    if v < 2 ^ 64 then some (v, rest) else none

/-- The characters an identifier may contain: ASCII alphanumerics and
hyphen (the crate checks bytes; no byte of a multi-byte UTF-8 character
falls in these ranges, so the character-level check coincides). -/
def isIdentChar (c : Char) : Bool :=
  c.isDigit || ('A' ≤ c && c ≤ 'Z') || ('a' ≤ c && c ≤ 'z') || c = '-'

/-- The crate's `identifier` loop: dot-separated nonempty runs of
identifier characters; in pre-release position a multi-character all-digit
segment must not start with `0`. Returns the segments and the unconsumed
input; `none` on an empty segment (which the caller always treats as an
error). -/
def parseSegments (isPre : Bool) (l : List Char) : Option (List (List Char) × List Char) :=
  let seg := l.takeWhile isIdentChar
  let rest := l.dropWhile isIdentChar
  if seg = [] then none
  else if isPre ∧ 1 < seg.length ∧ seg.head? = some '0' ∧ seg.all (fun c => c.isDigit) then
    none
  else if h : rest.head? = some '.' then
    match parseSegments isPre rest.tail with
    | some (segs, r) => some (seg :: segs, r)
    | none => none
  else some ([seg], rest)
termination_by l.length
decreasing_by
  replace h : (List.dropWhile isIdentChar l).head? = some '.' := h
  have hne : List.dropWhile isIdentChar l ≠ [] := by
    intro hnil
    rw [hnil] at h
    cases h
  have hlen : (List.takeWhile isIdentChar l).length +
      (List.dropWhile isIdentChar l).length = l.length := by
    have hc := congrArg List.length (List.takeWhile_append_dropWhile isIdentChar l)
    rw [List.length_append] at hc
    exact hc
  have h2 : 0 < (List.dropWhile isIdentChar l).length := List.length_pos.mpr hne
  have h3 := List.length_tail (List.dropWhile isIdentChar l)
  omega

/-- Consume one `.` (the crate's `dot`). -/
def expectDot : List Char → Option (List Char)
  | '.' :: rest => some rest
  | _ => none

/-- `semver::Version::parse` (the crate's `version` function):
`major.minor.patch`, optionally `-` and pre-release identifiers, optionally
`+` and build identifiers, and nothing after. -/
def semverParse (s : String) : Option SemVer := do
  let (major, r1) ← parseNumericIdent s.data
  let r2 ← expectDot r1
  let (minor, r3) ← parseNumericIdent r2
  let r4 ← expectDot r3
  let (patch, r5) ← parseNumericIdent r4
  let (pre, r6) ←
    match r5 with
    | '-' :: t => parseSegments true t
    | _ => some ([], r5)
  let (build, r7) ←
    match r6 with
    | '+' :: t => parseSegments false t
    | _ => some ([], r6)
  if r7 = [] then some ⟨major, minor, patch, pre, build⟩ else none

/-- Byte-order comparison of character lists. The crate compares `str`
values, i.e. UTF-8 bytes; on valid UTF-8, byte order coincides with
code-point order, so comparing scalar values is faithful. -/
def listLexCmp {α : Type} (cmp : α → α → Ordering) : List α → List α → Ordering
  | [], [] => .eq
  | [], _ :: _ => .lt
  | _ :: _, [] => .gt
  | a :: as, b :: bs => (cmp a b).then (listLexCmp cmp as bs)

/-- String comparison as `str::cmp`, on character lists. -/
def charsCmp : List Char → List Char → Ordering :=
  listLexCmp (fun a b => compare a.toNat b.toNat)

/-- One pre-release identifier against another (`Ord for Prerelease`, inner
loop): all-digit identifiers order below alphanumeric ones; two all-digit
identifiers compare numerically — by length, then bytes, valid because the
parser rejects leading zeros here; otherwise bytes. -/
def preIdentCmp (a b : List Char) : Ordering :=
  match a.all (fun c => c.isDigit), b.all (fun c => c.isDigit) with
  | true, true =>
    if a.length = b.length then charsCmp a b else compare a.length b.length
  | true, false => .lt
  | false, true => .gt
  | false, false => charsCmp a b

/-- One build identifier against another (`Ord for BuildMetadata`, inner
loop): like pre-release identifiers, except all-digit identifiers may carry
leading zeros, so they compare by the zero-trimmed digits (length, then
bytes) with the original lengths as the final tie-break:
`0 < 00 < 1 < 01 < 001 < 2`. -/
def buildIdentCmp (a b : List Char) : Ordering :=
  match a.all (fun c => c.isDigit), b.all (fun c => c.isDigit) with
  | true, true =>
    let av := a.dropWhile (fun c => c = '0')
    let bv := b.dropWhile (fun c => c = '0')
    if av.length ≠ bv.length then compare av.length bv.length
    else if av ≠ bv then charsCmp av bv
    else compare a.length b.length
  | true, false => .lt
  | false, true => .gt
  | false, false => charsCmp a b

/-- `Ord for Prerelease`: an empty pre-release (a real release) is greater
than any nonempty one; otherwise the identifier lists compare
lexicographically, a strict prefix being smaller. -/
def preCmp (a b : List (List Char)) : Ordering :=
  match a.isEmpty, b.isEmpty with
  | true, true => .eq
  | true, false => .gt
  | false, true => .lt
  | false, false => listLexCmp preIdentCmp a b

/-- `Ord for BuildMetadata` has no empty special case: an absent build
serializes as `""`, which splits into one empty all-digit identifier that
compares below every nonempty identifier and equal to itself — exactly how
the empty list behaves under the lexicographic lift, so the embedding uses
the identifier lists directly. -/
def buildCmp (a b : List (List Char)) : Ordering :=
  listLexCmp buildIdentCmp a b

/-- `Ord for Version`: major, minor, patch, then pre-release, then build
metadata as the final tie-break (the crate's early-return chain equals this
`Ordering.then` chain). -/
def semverCmp (x y : SemVer) : Ordering :=
  (compare x.major y.major).then
    ((compare x.minor y.minor).then
      ((compare x.patch y.patch).then
        ((preCmp x.pre y.pre).then (buildCmp x.build y.build))))

/-- `trim_start_matches('v')`: every leading `v` is removed, not just one. -/
def trimLeadingV (s : String) : String :=
  String.mk (s.data.dropWhile (fun c => c = 'v'))

/-- The comparator passed to `tags.sort_by` (main.rs lines 113-122):
versions descending when both sides parse, parseable before unparseable,
plain string order descending when neither parses. -/
def tagCmp (a b : String) : Ordering :=
  match semverParse (trimLeadingV a), semverParse (trimLeadingV b) with
  | some va, some vb => semverCmp vb va
  | some _, none => .lt
  | none, some _ => .gt
  | none, none => charsCmp b.data a.data

/-- The sort of `get_tags`: Rust's stable `sort_by` under `tagCmp`, i.e. a
stable merge sort whose `le` is `tagCmp a b ≠ gt`. -/
def sortTags (tags : List String) : List String :=
  tags.mergeSort (fun a b => decide (tagCmp a b ≠ .gt))

/-- Strip every leading `refs/tags/` (`trim_start_matches` with a string
pattern strips repeatedly). -/
def stripRefsTags (l : List Char) : List Char :=
  if h : l.take 10 = "refs/tags/".data then stripRefsTags (l.drop 10) else l
termination_by l.length
decreasing_by
  have h10 : (l.take 10).length = 10 := by rw [h]; rfl
  have : 10 ≤ l.length := by
    have := List.length_take 10 l
    omega
  have := List.length_drop 10 l
  omega

/-- The tag-name extraction applied to each line of `git ls-remote` output
(main.rs lines 101-110): the part after the first tab (or `""`), with
leading `refs/tags/` stripped. -/
def extractTagName (line : String) : String :=
  String.mk (stripRefsTags (((line.splitOn "\t").getD 1 "").data))

/-- The pure core of `get_tags` (main.rs lines 99-126) between the
`git ls-remote` subprocess and the JSON payload: extract a tag name per
line, sort, and truncate to `limit` when that is smaller. -/
def getTagsList (rawLines : List String) (limit : Option Nat) : List String :=
  let sorted := sortTags (rawLines.map extractTagName)
  match limit with
  | some n => if n < sorted.length then sorted.take n else sorted
  | none => sorted

/-- An `Ordering` that is neither `lt` nor `gt` is `eq`. -/
theorem ordering_eq_of_ne {o : Ordering} (h1 : o ≠ .lt) (h2 : o ≠ .gt) : o = .eq := by
  cases o
  · exact absurd rfl h1
  · rfl
  · exact absurd rfl h2

/-- An `Ordering` that is neither `eq` nor `gt` is `lt`. -/
theorem ordering_lt_of_ne {o : Ordering} (h1 : o ≠ .eq) (h2 : o ≠ .gt) : o = .lt := by
  cases o
  · rfl
  · exact absurd rfl h1
  · exact absurd rfl h2

/-- What makes `le a b := cmp a b ≠ gt` a total preorder: swapping the
arguments swaps the outcome, and `le` is transitive. Every comparator
involved in the tag sort satisfies these. -/
structure CmpLaws {α : Type} (cmp : α → α → Ordering) : Prop where
  symm : ∀ a b, (cmp a b).swap = cmp b a
  le_trans : ∀ {a b c : α}, cmp a b ≠ .gt → cmp b c ≠ .gt → cmp a c ≠ .gt

namespace CmpLaws

variable {α : Type} {cmp : α → α → Ordering}

theorem eq_symm (h : CmpLaws cmp) {a b : α} (hab : cmp a b = .eq) : cmp b a = .eq := by
  have hs := h.symm a b
  rw [hab] at hs
  exact hs.symm

theorem lt_symm (h : CmpLaws cmp) {a b : α} (hab : cmp a b = .lt) : cmp b a = .gt := by
  have hs := h.symm a b
  rw [hab] at hs
  exact hs.symm

theorem gt_symm (h : CmpLaws cmp) {a b : α} (hab : cmp a b = .gt) : cmp b a = .lt := by
  have hs := h.symm a b
  rw [hab] at hs
  exact hs.symm

theorem eq_trans (h : CmpLaws cmp) {a b c : α}
    (hab : cmp a b = .eq) (hbc : cmp b c = .eq) : cmp a c = .eq := by
  have hab' : cmp a b ≠ .gt := by simp [hab]
  have hbc' : cmp b c ≠ .gt := by simp [hbc]
  have hcb' : cmp c b ≠ .gt := by simp [h.eq_symm hbc]
  have hba' : cmp b a ≠ .gt := by simp [h.eq_symm hab]
  have h1 : cmp a c ≠ .gt := h.le_trans hab' hbc'
  have h2 : cmp c a ≠ .gt := h.le_trans hcb' hba'
  have h3 : cmp a c ≠ .lt := fun hlt => h2 (h.lt_symm hlt)
  exact ordering_eq_of_ne h3 h1

theorem lt_trans (h : CmpLaws cmp) {a b c : α}
    (hab : cmp a b = .lt) (hbc : cmp b c = .lt) : cmp a c = .lt := by
  have hab' : cmp a b ≠ .gt := by simp [hab]
  have hbc' : cmp b c ≠ .gt := by simp [hbc]
  have h1 : cmp a c ≠ .gt := h.le_trans hab' hbc'
  have h2 : cmp a c ≠ .eq := by
    intro he
    have hca' : cmp c a ≠ .gt := by simp [h.eq_symm he]
    have hcb : cmp c b ≠ .gt := h.le_trans hca' hab'
    exact hcb (h.lt_symm hbc)
  exact ordering_lt_of_ne h2 h1

theorem lt_of_eq_lt (h : CmpLaws cmp) {a b c : α}
    (hab : cmp a b = .eq) (hbc : cmp b c = .lt) : cmp a c = .lt := by
  have hab' : cmp a b ≠ .gt := by simp [hab]
  have hbc' : cmp b c ≠ .gt := by simp [hbc]
  have h1 : cmp a c ≠ .gt := h.le_trans hab' hbc'
  have h2 : cmp a c ≠ .eq := by
    intro he
    have hca' : cmp c a ≠ .gt := by simp [h.eq_symm he]
    have hcb : cmp c b ≠ .gt := h.le_trans hca' hab'
    exact hcb (h.lt_symm hbc)
  exact ordering_lt_of_ne h2 h1

theorem lt_of_lt_eq (h : CmpLaws cmp) {a b c : α}
    (hab : cmp a b = .lt) (hbc : cmp b c = .eq) : cmp a c = .lt := by
  have hab' : cmp a b ≠ .gt := by simp [hab]
  have hbc' : cmp b c ≠ .gt := by simp [hbc]
  have h1 : cmp a c ≠ .gt := h.le_trans hab' hbc'
  have h2 : cmp a c ≠ .eq := by
    intro he
    have hba : cmp b a = .eq := h.eq_trans hbc (h.eq_symm he)
    exact absurd (h.eq_symm hba) (by simp [hab])
  exact ordering_lt_of_ne h2 h1

end CmpLaws

/-- The lexicographic-step transitivity argument, abstracted over the six
`Ordering` values involved: if the first components behave like a preorder
on these three pointsและ the second components are `le`-transitive, the
`then`-combination is `le`-transitive. -/
theorem then_ne_gt_trans {xab xbc xac yab ybc yac : Ordering}
    (hx_eq : xab = .eq → xbc = .eq → xac = .eq)
    (hx_le : xab = .lt → xbc = .eq → xac = .lt)
    (hx_el : xab = .eq → xbc = .lt → xac = .lt)
    (hx_lt : xab = .lt → xbc = .lt → xac = .lt)
    (hy : yab ≠ .gt → ybc ≠ .gt → yac ≠ .gt)
    (hab : xab.then yab ≠ .gt) (hbc : xbc.then ybc ≠ .gt) :
    xac.then yac ≠ .gt := by
  rcases e1 : xab with _ | _ | _ <;> rcases e2 : xbc with _ | _ | _ <;>
    rw [e1] at hab <;> rw [e2] at hbc
  · rw [hx_lt e1 e2]
    simp [Ordering.then]
  · rw [hx_le e1 e2]
    simp [Ordering.then]
  · simp [Ordering.then] at hbc
  · rw [hx_el e1 e2]
    simp [Ordering.then]
  · rw [hx_eq e1 e2]
    simp only [Ordering.then] at hab hbc ⊢
    exact hy hab hbc
  · simp [Ordering.then] at hbc
  · simp [Ordering.then] at hab
  · simp [Ordering.then] at hab
  · simp [Ordering.then] at hab

/-- `CmpLaws` is stable under the lexicographic `then` combination. -/
theorem CmpLaws.thenc {α : Type} {c₁ c₂ : α → α → Ordering}
    (h₁ : CmpLaws c₁) (h₂ : CmpLaws c₂) :
    CmpLaws (fun a b => (c₁ a b).then (c₂ a b)) where
  symm a b := by
    rw [Ordering.swap_then, h₁.symm, h₂.symm]
  le_trans {a b c} hab hbc :=
    then_ne_gt_trans h₁.eq_trans h₁.lt_of_lt_eq h₁.lt_of_eq_lt h₁.lt_trans
      h₂.le_trans hab hbc

/-- `CmpLaws` is stable under flipping the arguments. -/
theorem CmpLaws.flipc {α : Type} {cmp : α → α → Ordering} (h : CmpLaws cmp) :
    CmpLaws (fun a b => cmp b a) where
  symm a b := h.symm b a
  le_trans {_ _ _} hab hbc := h.le_trans hbc hab

/-- `CmpLaws` is stable under precomposition with a key function. -/
theorem CmpLaws.mapc {α β : Type} {cmp : α → α → Ordering} (f : β → α)
    (h : CmpLaws cmp) : CmpLaws (fun x y => cmp (f x) (f y)) where
  symm a b := h.symm (f a) (f b)
  le_trans {_ _ _} hab hbc := h.le_trans hab hbc

/-- `compare` on a linear order satisfies the comparator laws. -/
theorem compare_laws {α : Type} [LinearOrder α] :
    CmpLaws (compare : α → α → Ordering) where
  symm a b := by
    rcases lt_trichotomy a b with hh | hh | hh
    · rw [compare_lt_iff_lt.mpr hh, compare_gt_iff_gt.mpr hh]
      rfl
    · subst hh
      rw [compare_eq_iff_eq.mpr rfl]
      rfl
    · rw [compare_gt_iff_gt.mpr hh, compare_lt_iff_lt.mpr hh]
      rfl
  le_trans {a b c} hab hbc := by
    have h1 : a ≤ b := by
      rcases lt_trichotomy a b with hh | hh | hh
      · exact le_of_lt hh
      · exact le_of_eq hh
      · exact absurd (compare_gt_iff_gt.mpr hh) hab
    have h2 : b ≤ c := by
      rcases lt_trichotomy b c with hh | hh | hh
      · exact le_of_lt hh
      · exact le_of_eq hh
      · exact absurd (compare_gt_iff_gt.mpr hh) hbc
    exact fun hgt => absurd (h1.trans h2) (not_le.mpr (compare_gt_iff_gt.mp hgt))

/-- Swapping arguments swaps a lexicographic list comparison. -/
theorem listLexCmp_symm {α : Type} {cmp : α → α → Ordering} (h : CmpLaws cmp) :
    ∀ a b, (listLexCmp cmp a b).swap = listLexCmp cmp b a := by
  intro a
  induction a with
  | nil =>
    intro b
    cases b <;> rfl
  | cons x xs ih =>
    intro b
    cases b with
    | nil => rfl
    | cons y ys =>
      show ((cmp x y).then (listLexCmp cmp xs ys)).swap = _
      rw [Ordering.swap_then, h.symm, ih]
      rfl

/-- Lexicographic list comparison is `le`-transitive. -/
theorem listLexCmp_le_trans {α : Type} {cmp : α → α → Ordering} (h : CmpLaws cmp) :
    ∀ a b c, listLexCmp cmp a b ≠ .gt → listLexCmp cmp b c ≠ .gt →
      listLexCmp cmp a c ≠ .gt := by
  intro a
  induction a with
  | nil =>
    intro b c _ _
    cases c <;> simp [listLexCmp]
  | cons x xs ih =>
    intro b c hab hbc
    cases b with
    | nil =>
      cases c <;> exact absurd hab (by simp [listLexCmp])
    | cons y ys =>
      cases c with
      | nil => exact absurd hbc (by simp [listLexCmp])
      | cons z zs =>
        show (cmp x z).then (listLexCmp cmp xs zs) ≠ .gt
        have hab' : (cmp x y).then (listLexCmp cmp xs ys) ≠ .gt := hab
        have hbc' : (cmp y z).then (listLexCmp cmp ys zs) ≠ .gt := hbc
        exact then_ne_gt_trans h.eq_trans h.lt_of_lt_eq h.lt_of_eq_lt h.lt_trans
          (ih ys zs) hab' hbc'

/-- The comparator laws for the lexicographic list lift. -/
theorem listLexCmp_laws {α : Type} {cmp : α → α → Ordering} (h : CmpLaws cmp) :
    CmpLaws (listLexCmp cmp) :=
  ⟨listLexCmp_symm h, fun {a b c} => listLexCmp_le_trans h a b c⟩

/-- The comparator laws for byte-order comparison of character lists. -/
theorem charsCmp_laws : CmpLaws charsCmp :=
  listLexCmp_laws (CmpLaws.mapc (fun c : Char => c.toNat) compare_laws)

/-- `Char.toNat` is injective (character order is scalar-value order). -/
theorem char_toNat_inj : Function.Injective Char.toNat :=
  StrictMono.injective fun ⦃_ _⦄ h => h

/-- `charsCmp` answers `eq` exactly on equal lists. -/
theorem charsCmp_eq_iff : ∀ {a b : List Char}, charsCmp a b = .eq ↔ a = b := by
  intro a
  induction a with
  | nil =>
    intro b
    cases b <;> simp [charsCmp, listLexCmp]
  | cons x xs ih =>
    intro b
    cases b with
    | nil => simp [charsCmp, listLexCmp]
    | cons y ys =>
      show (compare x.toNat y.toNat).then (listLexCmp _ xs ys) = .eq ↔ _
      rw [Ordering.then_eq_eq]
      constructor
      · rintro ⟨h1, h2⟩
        have hx : x = y := char_toNat_inj (compare_eq_iff_eq.mp h1)
        have hxs : xs = ys := ih.mp h2
        rw [hx, hxs]
      · intro hh
        injection hh with h1 h2
        subst h1
        subst h2
        exact ⟨compare_eq_iff_eq.mpr rfl, ih.mpr rfl⟩

/-- The numeric pre-release branch as a lexicographic `then` chain. -/
theorem preNumThen (a b : List Char) :
    (if a.length = b.length then charsCmp a b else compare a.length b.length) =
      (compare a.length b.length).then (charsCmp a b) := by
  by_cases hl : a.length = b.length
  · rw [if_pos hl, compare_eq_iff_eq.mpr hl]
    rfl
  · rw [if_neg hl]
    rcases hc : compare a.length b.length with _ | _ | _
    · rfl
    · exact absurd (compare_eq_iff_eq.mp hc) hl
    · rfl

/-- The comparator laws for one pre-release identifier. -/
theorem preIdentCmp_laws : CmpLaws preIdentCmp := by
  have hnum : CmpLaws (fun a b : List Char =>
      (compare a.length b.length).then (charsCmp a b)) :=
    (CmpLaws.mapc List.length compare_laws).thenc charsCmp_laws
  constructor
  · intro a b
    unfold preIdentCmp
    rcases ha : a.all (fun c => c.isDigit) <;>
      rcases hb : b.all (fun c => c.isDigit) <;> simp only [ha, hb]
    · exact charsCmp_laws.symm a b
    · rfl
    · rfl
    · rw [preNumThen a b, preNumThen b a]
      exact hnum.symm a b
  · intro a b c hab hbc
    unfold preIdentCmp at hab hbc ⊢
    rcases ha : a.all (fun c => c.isDigit) <;>
      rcases hb : b.all (fun c => c.isDigit) <;>
      rcases hc : c.all (fun c => c.isDigit) <;>
      simp only [ha, hb, hc] at hab hbc ⊢
    · exact charsCmp_laws.le_trans hab hbc
    · exact absurd rfl hbc
    · exact absurd rfl hab
    · exact absurd rfl hab
    · simp
    · exact absurd rfl hbc
    · simp
    · rw [preNumThen] at hab hbc ⊢
      exact hnum.le_trans hab hbc

/-- The numeric build-metadata branch as a lexicographic `then` chain over
the zero-trimmed digits and the original length. -/
theorem buildNumThen (a b : List Char) :
    (if (a.dropWhile (fun c => c = '0')).length ≠ (b.dropWhile (fun c => c = '0')).length then
        compare (a.dropWhile (fun c => c = '0')).length (b.dropWhile (fun c => c = '0')).length
      else if a.dropWhile (fun c => c = '0') ≠ b.dropWhile (fun c => c = '0') then
        charsCmp (a.dropWhile (fun c => c = '0')) (b.dropWhile (fun c => c = '0'))
      else compare a.length b.length) =
      ((compare (a.dropWhile (fun c => c = '0')).length
          (b.dropWhile (fun c => c = '0')).length).then
        (charsCmp (a.dropWhile (fun c => c = '0')) (b.dropWhile (fun c => c = '0')))).then
        (compare a.length b.length) := by
  by_cases hl : (a.dropWhile (fun c => c = '0')).length = (b.dropWhile (fun c => c = '0')).length
  · rw [if_neg (fun hne => hne hl), compare_eq_iff_eq.mpr hl]
    by_cases hv : a.dropWhile (fun c => c = '0') = b.dropWhile (fun c => c = '0')
    · rw [if_neg (fun hne => hne hv), charsCmp_eq_iff.mpr hv]
      rfl
    · rw [if_pos hv]
      rcases hc : charsCmp (a.dropWhile (fun c => c = '0')) (b.dropWhile (fun c => c = '0'))
        with _ | _ | _
      · rfl
      · exact absurd (charsCmp_eq_iff.mp hc) hv
      · rfl
  · rw [if_pos hl]
    rcases hc : compare (a.dropWhile (fun c => c = '0')).length
        (b.dropWhile (fun c => c = '0')).length with _ | _ | _
    · rfl
    · exact absurd (compare_eq_iff_eq.mp hc) hl
    · rfl

/-- The comparator laws for one build identifier. -/
theorem buildIdentCmp_laws : CmpLaws buildIdentCmp := by
  have hnum : CmpLaws (fun a b : List Char =>
      ((compare (a.dropWhile (fun c => c = '0')).length
          (b.dropWhile (fun c => c = '0')).length).then
        (charsCmp (a.dropWhile (fun c => c = '0')) (b.dropWhile (fun c => c = '0')))).then
        (compare a.length b.length)) :=
    (CmpLaws.mapc (fun l : List Char => l.dropWhile (fun c => c = '0'))
      ((CmpLaws.mapc List.length compare_laws).thenc charsCmp_laws)).thenc
      (CmpLaws.mapc List.length compare_laws)
  constructor
  · intro a b
    unfold buildIdentCmp
    rcases ha : a.all (fun c => c.isDigit) <;>
      rcases hb : b.all (fun c => c.isDigit) <;> simp only [ha, hb]
    · exact charsCmp_laws.symm a b
    · rfl
    · rfl
    · rw [buildNumThen a b, buildNumThen b a]
      exact hnum.symm a b
  · intro a b c hab hbc
    unfold buildIdentCmp at hab hbc ⊢
    rcases ha : a.all (fun c => c.isDigit) <;>
      rcases hb : b.all (fun c => c.isDigit) <;>
      rcases hc : c.all (fun c => c.isDigit) <;>
      simp only [ha, hb, hc] at hab hbc ⊢
    · exact charsCmp_laws.le_trans hab hbc
    · exact absurd rfl hbc
    · exact absurd rfl hab
    · exact absurd rfl hab
    · simp
    · exact absurd rfl hbc
    · simp
    · rw [buildNumThen] at hab hbc ⊢
      exact hnum.le_trans hab hbc

/-- The comparator laws for whole pre-release lists. -/
theorem preCmp_laws : CmpLaws preCmp := by
  have hl : CmpLaws (listLexCmp preIdentCmp) := listLexCmp_laws preIdentCmp_laws
  constructor
  · intro a b
    unfold preCmp
    rcases ha : a.isEmpty <;> rcases hb : b.isEmpty <;> simp only [ha, hb]
    · exact hl.symm a b
    · rfl
    · rfl
    · rfl
  · intro a b c hab hbc
    unfold preCmp at hab hbc ⊢
    rcases ha : a.isEmpty <;> rcases hb : b.isEmpty <;> rcases hc : c.isEmpty <;>
      simp only [ha, hb, hc] at hab hbc ⊢
    · exact hl.le_trans hab hbc
    · simp
    · exact absurd rfl hbc
    · simp
    · exact absurd rfl hab
    · exact absurd rfl hab
    · exact absurd rfl hbc
    · simp

/-- The comparator laws for build metadata. -/
theorem buildCmp_laws : CmpLaws buildCmp :=
  listLexCmp_laws buildIdentCmp_laws

/-- The comparator laws for full versions. -/
theorem semverCmp_laws : CmpLaws semverCmp := by
  have h1 : CmpLaws (fun x y : SemVer => compare x.major y.major) :=
    CmpLaws.mapc (fun x : SemVer => x.major) compare_laws
  have h2 : CmpLaws (fun x y : SemVer => compare x.minor y.minor) :=
    CmpLaws.mapc (fun x : SemVer => x.minor) compare_laws
  have h3 : CmpLaws (fun x y : SemVer => compare x.patch y.patch) :=
    CmpLaws.mapc (fun x : SemVer => x.patch) compare_laws
  have h4 : CmpLaws (fun x y : SemVer => preCmp x.pre y.pre) :=
    CmpLaws.mapc (fun x : SemVer => x.pre) preCmp_laws
  have h5 : CmpLaws (fun x y : SemVer => buildCmp x.build y.build) :=
    CmpLaws.mapc (fun x : SemVer => x.build) buildCmp_laws
  exact h1.thenc (h2.thenc (h3.thenc (h4.thenc h5)))

/-- The comparator laws for the tag comparator of `sort_by`. -/
theorem tagCmp_laws : CmpLaws tagCmp := by
  constructor
  · intro a b
    unfold tagCmp
    rcases ha : semverParse (trimLeadingV a) with _ | va <;>
      rcases hb : semverParse (trimLeadingV b) with _ | vb <;> simp only [ha, hb]
    · exact charsCmp_laws.symm b.data a.data
    · rfl
    · rfl
    · exact semverCmp_laws.symm vb va
  · intro a b c hab hbc
    unfold tagCmp at hab hbc ⊢
    rcases ha : semverParse (trimLeadingV a) with _ | va <;>
      rcases hb : semverParse (trimLeadingV b) with _ | vb <;>
      rcases hc : semverParse (trimLeadingV c) with _ | vc <;>
      simp only [ha, hb, hc] at hab hbc ⊢
    · exact charsCmp_laws.le_trans hbc hab
    · exact absurd rfl hbc
    · exact absurd rfl hab
    · exact absurd rfl hab
    · simp
    · exact absurd rfl hbc
    · simp
    · exact semverCmp_laws.le_trans hbc hab

/-- Totality of the sort's boolean `le`. -/
theorem tagLe_total : ∀ a b : String,
    (decide (tagCmp a b ≠ .gt) || decide (tagCmp b a ≠ .gt)) = true := by
  intro a b
  by_cases h : tagCmp a b = .gt
  · have hba := tagCmp_laws.gt_symm h
    simp [hba]
  · simp [h]

/-- Transitivity of the sort's boolean `le`. -/
theorem tagLe_trans : ∀ a b c : String,
    decide (tagCmp a b ≠ .gt) = true → decide (tagCmp b c ≠ .gt) = true →
    decide (tagCmp a c ≠ .gt) = true := by
  intro a b c hab hbc
  simp only [decide_eq_true_eq] at hab hbc ⊢
  exact tagCmp_laws.le_trans hab hbc

/-- C6 (amended): `get_tags`' sort permutes the tag list so that every tag
parsing as a semantic version (after stripping leading `v` characters)
comes before every tag that does not, the parseable tags are in descending
version order, and the unparseable tags are in descending plain string
order among themselves. The version order is non-strict: distinct tag
strings carrying equal versions (such as `v1.0.0` and `1.0.0`) tie and
keep their input order. -/
theorem get_tags_sort_order (tags : List String) :
    (sortTags tags).Perm tags ∧
    (sortTags tags).Pairwise (fun a b =>
      (semverParse (trimLeadingV a) = none → semverParse (trimLeadingV b) = none) ∧
      (∀ va vb, semverParse (trimLeadingV a) = some va →
        semverParse (trimLeadingV b) = some vb → semverCmp va vb ≠ .lt) ∧
      (semverParse (trimLeadingV a) = none → semverParse (trimLeadingV b) = none →
        charsCmp a.data b.data ≠ .lt)) := by
  constructor
  · exact List.mergeSort_perm tags _
  · have hp := List.sorted_mergeSort tagLe_trans tagLe_total tags
    refine hp.imp ?_
    intro a b hab
    rw [decide_eq_true_eq] at hab
    refine ⟨?_, ?_, ?_⟩
    · intro hna
      rcases hb : semverParse (trimLeadingV b) with _ | vb
      · rfl
      · exfalso
        apply hab
        unfold tagCmp
        rw [hna, hb]
    · intro va vb hva hvb hlt
      apply hab
      unfold tagCmp
      rw [hva, hvb]
      exact semverCmp_laws.lt_symm hlt
    · intro hna hnb hlt
      apply hab
      unfold tagCmp
      rw [hna, hnb]
      exact charsCmp_laws.lt_symm hlt

/-- C6 counterexample to strictness: the distinct tags `v1.0.0` and
`1.0.0` parse to the same version, so on the input `[v1.0.0, 1.0.0]` the
sorted output (some arrangement of these two tags) cannot order the
parseable tags strictly descending — whichever tag stands first, the next
one carries an equal, not a strictly smaller, version. -/
theorem get_tags_sort_not_strictly_descending :
    semverParse (trimLeadingV "v1.0.0") = some ⟨1, 0, 0, [], []⟩ ∧
    semverParse (trimLeadingV "1.0.0") = some ⟨1, 0, 0, [], []⟩ ∧
    ¬ (sortTags ["v1.0.0", "1.0.0"]).Pairwise (fun a b =>
      ∀ va vb, semverParse (trimLeadingV a) = some va →
        semverParse (trimLeadingV b) = some vb → semverCmp vb va = .lt) := by
  refine ⟨rfl, rfl, ?_⟩
  intro hp
  have hperm : (sortTags ["v1.0.0", "1.0.0"]).Perm ["v1.0.0", "1.0.0"] :=
    List.mergeSort_perm _ _
  have hlen : (sortTags ["v1.0.0", "1.0.0"]).length = 2 := by
    rw [hperm.length_eq]
    rfl
  have hmem : ∀ x ∈ sortTags ["v1.0.0", "1.0.0"],
      semverParse (trimLeadingV x) = some ⟨1, 0, 0, [], []⟩ := by
    intro x hx
    have hx2 := hperm.mem_iff.mp hx
    simp only [List.mem_cons, List.not_mem_nil, or_false] at hx2
    rcases hx2 with h | h
    · rw [h]
      rfl
    · rw [h]
      rfl
  rcases hs : sortTags ["v1.0.0", "1.0.0"] with _ | ⟨x, t⟩
  · rw [hs] at hlen
    cases hlen
  rcases t with _ | ⟨y, t2⟩
  · rw [hs] at hlen
    cases hlen
  rcases t2 with _ | ⟨z, t3⟩
  swap
  · rw [hs] at hlen
    simp at hlen
  rw [hs] at hp hmem
  have hrel := (List.pairwise_cons.mp hp).1 y (by simp)
  have hx := hmem x (by simp)
  have hy := hmem y (by simp)
  have hlt := hrel _ _ hx hy
  have hc : semverCmp (⟨1, 0, 0, [], []⟩ : SemVer) ⟨1, 0, 0, [], []⟩ = .eq := rfl
  rw [hc] at hlt
  exact absurd hlt (by decide)

/-- UTF-8 byte length of a character list (Rust's `str::len`). -/
def utf8Len : List Char → Nat
  | [] => 0
  | c :: cs => c.utf8Size + utf8Len cs

/-- Whether byte position `n` is a character boundary — the condition under
which the slice `&content[..n]` does not panic. -/
def isCharBoundary : List Char → Nat → Bool
  | _, 0 => true
  | [], _ + 1 => false
  | c :: cs, n + 1 =>
    if c.utf8Size ≤ n + 1 then isCharBoundary cs (n + 1 - c.utf8Size) else false

/-- The characters making up the first `n` bytes (meaningful when `n` is a
boundary). -/
def utf8Take : List Char → Nat → List Char
  | _, 0 => []
  | [], _ + 1 => []
  | c :: cs, n + 1 =>
    if c.utf8Size ≤ n + 1 then c :: utf8Take cs (n + 1 - c.utf8Size) else []

/-- `get_readme`'s truncation (main.rs line 193): when the content exceeds
20000 bytes the code slices `&content[..20000]`, which panics — modelled as
`none` — whenever byte 20000 falls inside a multi-byte character. -/
def readmeTruncate (content : String) : Option String :=
  if 20000 < utf8Len content.data then
    if isCharBoundary content.data 20000 then
      some (String.mk (utf8Take content.data 20000) ++ "... [TRUNCATED]")
    else none
  else some content

/-- The provider environment for the panic-aware model: `get_readme`'s
HTTP layer is exposed (`fetchReadme` takes the API URL and returns the body
text, with send errors, non-success statuses and decoding errors collapsed
into the failure string, as in `ToolEnv`), while the other five providers
stay abstract total functions. -/
structure ToolEnvP where
  fetchReadme : String → Except String String
  get_tags : String → Option Nat → Except String Json
  get_changelog : String → String → String → Except String Json
  get_file_tree : String → Option String → Except String Json
  get_file_content : String → String → Option String → Except String Json
  search_repository : String → String → Except String Json

/-- `get_readme` (main.rs lines 179-196) with its HTTP layer abstracted:
parse the URL, fetch, truncate. The outer `none` is the slicing panic; a
`some` carries the function's `Result`. -/
def get_readmeP (envP : ToolEnvP) (link : String) : Option (Except String Json) :=
  match parse_github_url link with
  | .error e => some (.error e)
  | .ok (owner, repo) =>
    match envP.fetchReadme
        ("https://api.github.com/repos/" ++ owner ++ "/" ++ repo ++ "/readme") with
    | .error e => some (.error e)
    | .ok content =>
      match readmeTruncate content with
      | none => none
      | some truncated =>
        some (.ok (.obj [("repository", .str link), ("type", .str "readme"),
          ("content", .str truncated)]))

/-- The `tools/call` dispatch of the panic-aware model: identical to
`providerResult` except that the `get_readme` arm can panic. -/
def providerResultP (envP : ToolEnvP) (params : Json) : Option (Except String Json) :=
  let args := params.index "arguments"
  let name := (params.index "name").asStr.getD ""
  match name with
  | "get_tags" =>
    some (envP.get_tags ((args.index "url").asStr.getD "") ((args.index "limit").asU64))
  | "get_changelog" =>
    some (envP.get_changelog ((args.index "url").asStr.getD "")
      ((args.index "start_tag").asStr.getD "") ((args.index "end_tag").asStr.getD ""))
  | "get_readme" => get_readmeP envP ((args.index "url").asStr.getD "")
  | "get_file_tree" =>
    some (envP.get_file_tree ((args.index "url").asStr.getD "")
      ((args.index "branch").asStr))
  | "get_file_content" =>
    some (envP.get_file_content ((args.index "url").asStr.getD "")
      ((args.index "path").asStr.getD "") ((args.index "branch").asStr))
  | "search_repository" =>
    some (envP.search_repository ((args.index "url").asStr.getD "")
      ((args.index "query").asStr.getD ""))
  | _ => some (.error ("Tool '" ++ name ++ "' not found"))

/-- `handleCall` in the panic-aware model. -/
def handleCallP (envP : ToolEnvP) (idv : Json) (method : String) (params : Json) :
    Option Json :=
  match method with
  | "initialize" => some (initializeResponse idv)
  | "tools/list" => some (toolsListResponse idv)
  | "tools/call" =>
    match providerResultP envP params with
    | none => none
    | some res => some (toolCallEnvelope idv res)
  | _ => some (.obj [("jsonrpc", .str "2.0"), ("id", idv), ("result", .obj [])])

/-- One line in the panic-aware model: the outer `none` is an escaped
panic; `some r` is normal processing with `r` the zero-or-one response. -/
def processLineP (envP : ToolEnvP) (l : RawLine) : Option (Option Json) :=
  match l with
  | .blank => some none
  | .invalid => some none
  | .json v =>
    match parseRequest v with
    | none => some none
    | some req =>
      match req.id with
      | none => some none
      | some idv =>
        match handleCallP envP idv req.method req.params with
        | none => none
        | some resp => some (some resp)

/-- The loop of `main` under panics: the source installs only a panic hook
(main.rs lines 336-346), which logs to stderr before the program exits, and
nothing in the loop catches the unwind. A panic therefore terminates the
process: the responses already written stay, the remaining input lines are
never read, and the crash flag is set. -/
def runServerP (envP : ToolEnvP) : List RawLine → List Json × Bool
  | [] => ([], false)
  | l :: rest =>
    match processLineP envP l with
    | none => ([], true)
    | some r =>
      let (rs, crashed) := runServerP envP rest
      (r.toList ++ rs, crashed)

/-- A README body of 19999 one-byte characters followed by one three-byte
character: 20002 bytes in total, with byte 20000 falling inside the final
character. -/
def crashContent : String := String.mk (List.replicate 19999 'a' ++ ['€'])

/-- An environment whose README fetch returns `crashContent`. -/
def crashEnv : ToolEnvP where
  fetchReadme := fun _ => .ok crashContent
  get_tags := fun _ _ => .ok .null
  get_changelog := fun _ _ _ => .ok .null
  get_file_tree := fun _ _ => .ok .null
  get_file_content := fun _ _ _ => .ok .null
  search_repository := fun _ _ => .ok .null

/-- A `tools/call` of `get_readme` with id 1, as an input line. -/
def readmeCallLine : RawLine :=
  .json (.obj [("jsonrpc", .str "2.0"), ("method", .str "tools/call"),
    ("params", .obj [("name", .str "get_readme"),
      ("arguments", .obj [("url", .str "https://github.com/a/b")])]),
    ("id", .num 1)])

/-- A subsequent `initialize` request with id 7. -/
def initLine7 : RawLine :=
  .json (.obj [("jsonrpc", .str "2.0"), ("method", .str "initialize"),
    ("id", .num 7)])

/-- Byte length of `n` one-byte characters and a remainder. -/
theorem utf8Len_replicate_a (n : Nat) (l : List Char) :
    utf8Len (List.replicate n 'a' ++ l) = n + utf8Len l := by
  induction n with
  | zero => simp
  | succ k ih =>
    rw [List.replicate_succ, List.cons_append]
    show 'a'.utf8Size + utf8Len (List.replicate k 'a' ++ l) = _
    rw [ih]
    have hu : 'a'.utf8Size = 1 := rfl
    omega

/-- Boundaries beyond `n` one-byte characters are boundaries of the
remainder. -/
theorem isCharBoundary_replicate_a (n k : Nat) (l : List Char) :
    isCharBoundary (List.replicate n 'a' ++ l) (n + k) = isCharBoundary l k := by
  induction n with
  | zero => simp
  | succ m ih =>
    rw [List.replicate_succ, List.cons_append]
    have hn : m + 1 + k = (m + k) + 1 := by omega
    rw [hn]
    show (if 'a'.utf8Size ≤ (m + k) + 1 then
        isCharBoundary (List.replicate m 'a' ++ l) ((m + k) + 1 - 'a'.utf8Size)
      else false) = _
    have hu : 'a'.utf8Size = 1 := rfl
    rw [hu, if_pos (by omega), show m + k + 1 - 1 = m + k from by omega, ih]

/-- On `crashContent` the truncation slice panics: the content is 20002
bytes long and byte 20000 is not a character boundary. -/
theorem readmeTruncate_crashContent : readmeTruncate crashContent = none := by
  have hdata : crashContent.data = List.replicate 19999 'a' ++ ['€'] := rfl
  have hlen : utf8Len crashContent.data = 20002 := by
    rw [hdata, utf8Len_replicate_a]
    rfl
  have hbound : isCharBoundary crashContent.data 20000 = false := by
    rw [hdata, show (20000 : Nat) = 19999 + 1 from rfl, isCharBoundary_replicate_a]
    rfl
  unfold readmeTruncate
  rw [hlen, if_pos (by omega), hbound, if_neg (by simp)]

/-- `get_readme` panics when the URL parses, the fetch succeeds, and the
truncation slice panics. -/
theorem get_readmeP_eq_none (envP : ToolEnvP) (link owner repo content : String)
    (h1 : parse_github_url link = .ok (owner, repo))
    (h2 : envP.fetchReadme
      ("https://api.github.com/repos/" ++ owner ++ "/" ++ repo ++ "/readme") = .ok content)
    (h3 : readmeTruncate content = none) :
    get_readmeP envP link = none := by
  unfold get_readmeP
  rw [h1]
  show (match envP.fetchReadme
      ("https://api.github.com/repos/" ++ owner ++ "/" ++ repo ++ "/readme") with
    | .error e => some (.error e)
    | .ok content2 =>
      match readmeTruncate content2 with
      | none => (none : Option (Except String Json))
      | some truncated =>
        some (.ok (.obj [("repository", .str link), ("type", .str "readme"),
          ("content", .str truncated)]))) = none
  rw [h2]
  show (match readmeTruncate content with
    | none => (none : Option (Except String Json))
    | some truncated =>
      some (.ok (.obj [("repository", .str link), ("type", .str "readme"),
        ("content", .str truncated)]))) = none
  rw [h3]

/-- A panicking provider propagates through the `tools/call` arm. -/
theorem handleCallP_toolsCall_none (envP : ToolEnvP) (idv params : Json)
    (h : providerResultP envP params = none) :
    handleCallP envP idv "tools/call" params = none := by
  show (match providerResultP envP params with
    | none => (none : Option Json)
    | some res => some (toolCallEnvelope idv res)) = none
  rw [h]

/-- A line whose call panics makes the whole line panic. -/
theorem processLineP_json_none (envP : ToolEnvP) (v : Json) (req : JsonRpcRequest)
    (idv : Json) (hp : parseRequest v = some req) (hid : req.id = some idv)
    (h : handleCallP envP idv req.method req.params = none) :
    processLineP envP (.json v) = none := by
  unfold processLineP
  simp only [hp, hid, h]

/-- Processing the `get_readme` call against `crashEnv` panics. -/
theorem processLineP_crash : processLineP crashEnv readmeCallLine = none := by
  have h1 : get_readmeP crashEnv "https://github.com/a/b" = none :=
    get_readmeP_eq_none crashEnv "https://github.com/a/b" "a" "b" crashContent
      rfl rfl readmeTruncate_crashContent
  have h2 : providerResultP crashEnv
      (.obj [("name", .str "get_readme"),
        ("arguments", .obj [("url", .str "https://github.com/a/b")])]) = none := by
    show get_readmeP crashEnv
      ((((Json.obj [("name", .str "get_readme"),
          ("arguments", .obj [("url", .str "https://github.com/a/b")])]).index
        "arguments").index "url").asStr.getD "") = none
    rw [show (((Json.obj [("name", .str "get_readme"),
        ("arguments", .obj [("url", .str "https://github.com/a/b")])]).index
      "arguments").index "url").asStr.getD "" = "https://github.com/a/b" from rfl]
    exact h1
  have h3 : handleCallP crashEnv (.num 1) "tools/call"
      (.obj [("name", .str "get_readme"),
        ("arguments", .obj [("url", .str "https://github.com/a/b")])]) = none :=
    handleCallP_toolsCall_none crashEnv (.num 1) _ h2
  exact processLineP_json_none crashEnv _
    ⟨"2.0", "tools/call",
      .obj [("name", .str "get_readme"),
        ("arguments", .obj [("url", .str "https://github.com/a/b")])],
      some (.num 1)⟩
    (.num 1) rfl rfl h3

/-- C9 (amended): the source installs only a panic hook, which logs before
the program exits; nothing catches the unwind, so a panic anywhere inside
per-line processing — here `get_readme`'s `&content[..20000]` slice landing
inside a multi-byte character — terminates the process: no response is
written for that line and the remaining input lines are never processed. -/
theorem panic_terminates_loop (envP : ToolEnvP) (l : RawLine) (rest : List RawLine)
    (h : processLineP envP l = none) :
    runServerP envP (l :: rest) = ([], true) := by
  unfold runServerP
  rw [h]

/-- C9 witness: the concrete oversized-README call panics and kills the
loop with an `initialize` request still pending. -/
theorem panic_terminates_loop_witness :
    processLineP crashEnv readmeCallLine = none ∧
    runServerP crashEnv [readmeCallLine, initLine7] = ([], true) :=
  ⟨processLineP_crash,
   panic_terminates_loop crashEnv readmeCallLine [initLine7] processLineP_crash⟩

/-- C9 counterexample: the claim says a panic is caught at the loop
boundary and processing continues with the next line; in fact the crash
leaves the following `initialize` request unanswered — the same request
that, alone, receives its response. -/
theorem panic_not_caught :
    runServerP crashEnv [readmeCallLine, initLine7] = ([], true) ∧
    runServerP crashEnv [initLine7] = ([initializeResponse (.num 7)], false) := by
  constructor
  · unfold runServerP
    rw [processLineP_crash]
  · rfl
